import Mathlib

/-!
Shallow embedding of the FalseFile P2P file-transfer client
(`WebRTCManager`, src/unnamed/part_000) and its signaling relay server
(src/server/index.ts), together with proofs settling the specification
claims about chunked file transfer, candidate queuing, SDP token
round-tripping, and the relay room protocol.

Bytes are modelled as `Nat` (values of `Uint8Array` entries /
`ArrayBuffer` bytes), byte buffers as `List Nat`, and JavaScript
callback invocations (`onProgress`, `onFileReceived`, `onStatusChange`,
`addIceCandidate`) as append-only logs inside the state.  Progress
values (JS floating-point numbers) are modelled as rationals; every
arithmetic step the code performs on them (`/`, `*`, `Math.min`) is
monotone, so order facts transfer.
-/

/-- One remote ICE candidate (`RTCIceCandidateInit` is opaque to the
manager: it is only stored and forwarded). -/
abbrev Candidate := String

/-- A session descriptor: the record `\x7b type, sdp \x7d` that
`compressSDP` serialises and `decompressSDP` recovers. -/
structure SessionDesc where
  type : String
  sdp : String
  deriving DecidableEq, Repr

/-- A signaling envelope as received by the `socket.on('signal')`
handler. -/
inductive SignalData where
  | offer (sdp : String)
  | answer (sdp : String)
  | iceCandidate (c : Candidate)
  deriving DecidableEq, Repr

/-- A message arriving on the data channel: either a string that parses
to a `metadata` control message, or a binary frame.  (A string that
fails to parse, or parses to a non-metadata type, leaves the state
unchanged in the source; such messages are omitted from the alphabet
because no claim mentions them.) -/
inductive Msg where
  | meta (name : String) (size : Nat) (mime : String)
  | bin (bytes : List Nat)
  deriving DecidableEq, Repr

/-- The mutable fields of `WebRTCManager` touched by the signal handler
and the transfer engine, plus logs of the callback invocations the code
makes.  `remoteDesc` models `peerConnection.remoteDescription`,
`appliedCandidates` the sequence of `addIceCandidate` calls. -/
structure ManagerState where
  roomCode : String
  isHost : Bool
  pendingCandidates : List Candidate
  remoteDesc : Option SessionDesc
  appliedCandidates : List Candidate
  receiveBuffer : List (List Nat)
  receivedSize : Nat
  expectedSize : Nat
  expectedName : String
  expectedType : String
  progressLog : List (ℚ × String)
  filesReceived : List (List Nat × String)
  deriving DecidableEq, Repr

/-- The field initialisers of `WebRTCManager`. -/
def initialState : ManagerState where
  roomCode := ""
  isHost := false
  pendingCandidates := []
  remoteDesc := none
  appliedCandidates := []
  receiveBuffer := []
  receivedSize := 0
  expectedSize := 0
  expectedName := ""
  expectedType := ""
  progressLog := []
  filesReceived := []

/-- The `socket.on('signal')` handler (src/unnamed/part_000 lines
143-192).  On an offer or answer it sets the remote description, then
applies every pending candidate in order and clears the queue; on an
ice-candidate it applies immediately when a remote description exists,
otherwise pushes onto `pendingCandidates`. -/
def stepSignal (st : ManagerState) (d : SignalData) : ManagerState :=
  match d with
  | .offer sdp =>
      { st with
        remoteDesc := some ⟨"offer", sdp⟩
        appliedCandidates := st.appliedCandidates ++ st.pendingCandidates
        pendingCandidates := [] }
  | .answer sdp =>
      { st with
        remoteDesc := some ⟨"answer", sdp⟩
        appliedCandidates := st.appliedCandidates ++ st.pendingCandidates
        pendingCandidates := [] }
  | .iceCandidate c =>
      if st.remoteDesc.isSome then
        { st with appliedCandidates := st.appliedCandidates ++ [c] }
      else
        { st with pendingCandidates := st.pendingCandidates ++ [c] }

/-- Process a sequence of signaling envelopes in arrival order. -/
def runSignals (st : ManagerState) (ds : List SignalData) : ManagerState :=
  ds.foldl stepSignal st

/-- The candidates carried by a signal trace, in arrival order. -/
def candsOf : List SignalData → List Candidate
  | [] => []
  | .iceCandidate c :: ds => c :: candsOf ds
  | .offer _ :: ds => candsOf ds
  | .answer _ :: ds => candsOf ds

/-- `d` is a description-bearing signal (offer or answer). -/
def SignalData.isDesc : SignalData → Bool
  | .offer _ => true
  | .answer _ => true
  | .iceCandidate _ => false

/-- Chunk size used by `sendFile` (16384 bytes). -/
def chunkSize : Nat := 16384

/-- Backpressure high-water mark used by `sendNextChunk`
(1024 * 1024 bytes). -/
def highWaterMark : Nat := 1024 * 1024

/-- The receive-progress value computed in the binary branch of
`handleDataMessage`: `Math.min(100, (receivedSize / expectedSize) * 100)`.
When `expectedSize = 0` and `receivedSize > 0` the JS quotient is
`Infinity` and the `min` yields 100, which the branch below reproduces;
the remaining corner (`0 / 0 = NaN`) is unreachable because the sender
never emits a zero-length frame and no theorem below visits it. -/
def recvProgress (receivedSize expectedSize : Nat) : ℚ :=
  if expectedSize = 0 then 100
  else min 100 (((receivedSize : ℚ) / (expectedSize : ℚ)) * 100)

/-- `handleDataMessage` (src/unnamed/part_000 lines 424-454).  A
metadata message overwrites the expected name/size/mime, clears the
chunk buffer and byte count, and reports progress 0; a binary frame is
appended to the buffer, the byte count grows, progress is reported, and
when `receivedSize >= expectedSize` the buffered chunks are concatenated
(in arrival order) into the emitted artifact and only `receiveBuffer`
is cleared. -/
def handleDataMessage (st : ManagerState) (m : Msg) : ManagerState :=
  match m with
  | .meta name size mime =>
      { st with
        expectedSize := size
        expectedName := name
        expectedType := mime
        receiveBuffer := []
        receivedSize := 0
        progressLog := st.progressLog ++ [(0, "receiving")] }
  | .bin bytes =>
      let buf := st.receiveBuffer ++ [bytes]
      let recv := st.receivedSize + bytes.length
      let st := { st with
        receiveBuffer := buf
        receivedSize := recv
        progressLog := st.progressLog ++ [(recvProgress recv st.expectedSize, "receiving")] }
      if st.expectedSize ≤ recv then
        { st with
          filesReceived := st.filesReceived ++ [(buf.flatten, st.expectedName)]
          receiveBuffer := [] }
      else st

/-- Deliver a sequence of data-channel messages in order. -/
def runMessages (st : ManagerState) (ms : List Msg) : ManagerState :=
  ms.foldl handleDataMessage st

/-- The chunks `sendFile` emits starting from byte `offset`: the slice
`file.slice(offset, offset + chunkSize)` followed by the chunks from
`offset + chunkSize`, stopping once `offset >= file.size`
(src/unnamed/part_000 lines 392-421). -/
def sendChunksFrom (file : List Nat) (offset : Nat) : List (List Nat) :=
  if h : file.length ≤ offset then []
  else ((file.drop offset).take chunkSize) :: sendChunksFrom file (offset + chunkSize)
termination_by file.length - offset
decreasing_by
  simp only [not_le] at h
  have hc : 0 < chunkSize := by decide
  omega

/-- The `onProgress` reports `sendFile` makes from byte `offset`
onwards: after each chunk, `Math.min(100, (offset / file.size) * 100)`
with status `sending` (where `offset` has already been advanced by
`chunkSize`), and finally `(100, completed)` once `offset >= file.size`.
For an empty file the quotient is never formed: the first iteration
reports `(100, completed)` directly. -/
def sendProgressFrom (file : List Nat) (offset : Nat) : List (ℚ × String) :=
  if h : file.length ≤ offset then [(100, "completed")]
  else
    (min 100 ((((offset + chunkSize : Nat) : ℚ) / (file.length : ℚ)) * 100), "sending")
      :: sendProgressFrom file (offset + chunkSize)
termination_by file.length - offset
decreasing_by
  simp only [not_le] at h
  have hc : 0 < chunkSize := by decide
  omega

/-- One step of the `sendNextChunk` loop, as observed from outside:
the chunk handed to `dataChannel.send`, the channel's `bufferedAmount`
at the instant of the send (never read by the code), the
`bufferedAmount` the code reads right after the send, and the delay (ms)
the code imposes before the next iteration: 0 when the read value is
below `highWaterMark` (immediate recursive call), 50 otherwise
(`setTimeout(sendNextChunk, 50)`). -/
structure SendStep where
  chunk : List Nat
  bufferedAtSend : Nat
  bufferedAfterSend : Nat
  delayMs : Nat
  deriving DecidableEq, Repr

/-- The trace of the `sendNextChunk` loop under an environment `env`
giving the channel's `bufferedAmount` over time: `env (2*k)` is the
value at the instant chunk `k` is sent, `env (2*k+1)` the value the
post-send flow-control check reads.  The loop sends the slice at
`offset` unconditionally whenever `offset < file.size`; the check only
chooses between continuing immediately and continuing after 50 ms. -/
def sendSteps (file : List Nat) (env : Nat → Nat) (offset k : Nat) : List SendStep :=
  if h : file.length ≤ offset then []
  else
    { chunk := (file.drop offset).take chunkSize
      bufferedAtSend := env (2 * k)
      bufferedAfterSend := env (2 * k + 1)
      delayMs := if env (2 * k + 1) < highWaterMark then 0 else 50 }
      :: sendSteps file env (offset + chunkSize) (k + 1)
termination_by file.length - offset
decreasing_by
  simp only [not_le] at h
  have hc : 0 < chunkSize := by decide
  omega

/-- A room on the relay server: the host's socket id and, once someone
has joined, the guest's (src/server/index.ts line 18). -/
structure Room where
  host : String
  guest : Option String
  deriving DecidableEq, Repr

/-- The relay server's room table, keyed by room code (a `Map` in the
source; keys are unique at creation). -/
abbrev RoomTable := List (String × Room)

/-- Result delivered to the `join-room` callback together with the
server-to-client notifications the handler emits (target socket id,
event name). -/
inductive JoinReply where
  | err (msg : String)
  | success
  deriving DecidableEq, Repr

/-- The `join-room` handler (src/server/index.ts lines 42-59): unknown
code fails with `Room not found`; an occupied guest slot fails with
`Room is full`; otherwise the caller is recorded as the guest, the host
is notified with `guest-joined`, and the callback receives success. -/
def joinRoomHandler (rooms : RoomTable) (roomCode sid : String) :
    RoomTable × JoinReply × List (String × String) :=
  match rooms.lookup roomCode with
  | none => (rooms, .err "Room not found", [])
  | some room =>
      match room.guest with
      | some _ => (rooms, .err "Room is full", [])
      | none =>
          (rooms.map (fun p => if p.1 = roomCode then (p.1, { p.2 with guest := some sid }) else p),
           .success,
           [(room.host, "guest-joined")])

/-- The response object the client's `join-room` callback receives. -/
structure JoinResponse where
  error : Option String
  success : Option Bool
  deriving DecidableEq, Repr

/-- The resolution of the client's `joinRoom` promise
(src/unnamed/part_000 lines 251-280) as a function of what the 10 s
wait produced: `none` models the timeout firing (no server response in
time), `some r` a server response.  The promise resolves `false` on
timeout, `false` whenever `response.error` is set (whatever the
message), and `true` otherwise; alongside, `onStatusChange` receives
`error` in the failure cases and `connecting` on success. -/
def joinRoomResolve (outcome : Option JoinResponse) : Bool × String :=
  match outcome with
  | none => (false, "error")
  | some r =>
      match r.error with
      | some _ => (false, "error")
      | none => (true, "connecting")

/-- The client state `createRoom` touches. -/
structure CreateRoomState where
  roomCode : String
  isHost : Bool
  socketConnected : Bool
  deriving DecidableEq, Repr

/-- The result of `createRoom` (src/unnamed/part_000 lines 230-249):
the updated client state, the code the promise resolves with, and
whether the server was contacted (`create-room` emitted).  A truthy
(non-empty) `roomCode` short-circuits: the existing code is returned
and nothing else happens.  Otherwise the socket is connected, the
manager is marked host, and the server-allocated `serverCode` is stored
and returned. -/
def createRoom (st : CreateRoomState) (serverCode : String) :
    CreateRoomState × String × Bool :=
  if st.roomCode ≠ "" then (st, st.roomCode, false)
  else ({ roomCode := serverCode, isHost := true, socketConnected := true },
        serverCode, true)

/-- `String.fromCharCode` applied to a byte sequence: each byte becomes
the character with that code point (all byte values are below 256, far
below the surrogate range, so `Char.ofNat` is exact). -/
def bytesToBinString (bs : List Nat) : List Char := bs.map Char.ofNat

/-- `charCodeAt` over every position of a binary string. -/
def binStringToBytes (cs : List Char) : List Nat := cs.map Char.toNat

/-- `compressSDP` (src/unnamed/part_000 lines 460-464), parametric in
the external library functions it composes: `JSON.stringify` on the
`\x7b type, sdp \x7d` record, `pako.deflate` producing bytes, and
`btoa` on the byte-per-character binary string. -/
def compressSDP (stringify : SessionDesc → String) (deflate : String → List Nat)
    (btoa : List Char → String) (data : SessionDesc) : String :=
  btoa (bytesToBinString (deflate (stringify data)))

/-- `decompressSDP` (src/unnamed/part_000 lines 466-471), parametric in
the external library functions: `atob` back to the binary string (its
characters read off with `charCodeAt`), `pako.inflate` with `to:
'string'`, and `JSON.parse`.  Failures of the external decoders
(malformed base64, corrupt stream, unparsable JSON) surface as `none`;
in the source they are exceptions. -/
def decompressSDP (atob : String → Option (List Char))
    (inflate : List Nat → Option String)
    (parse : String → Option SessionDesc) (base64 : String) : Option SessionDesc := do
  let charData ← atob base64
  let json ← inflate (binStringToBytes charData)
  parse json

/-! ## Generic facts about signal traces -/

theorem runSignals_nil (st : ManagerState) : runSignals st [] = st := rfl

theorem runSignals_cons (st : ManagerState) (d : SignalData) (ds : List SignalData) :
    runSignals st (d :: ds) = runSignals (stepSignal st d) ds := rfl

theorem runSignals_append (st : ManagerState) (l1 l2 : List SignalData) :
    runSignals st (l1 ++ l2) = runSignals (runSignals st l1) l2 :=
  List.foldl_append ..

/-- While no description-bearing signal has arrived and the remote
description is unset, every candidate is appended to the pending queue
and nothing else in the state changes. -/
theorem runSignals_noDesc (ds : List SignalData) (st : ManagerState)
    (h : ∀ e ∈ ds, e.isDesc = false) (hr : st.remoteDesc = none) :
    runSignals st ds =
      { st with pendingCandidates := st.pendingCandidates ++ candsOf ds } := by
  induction ds generalizing st with
  | nil => simp [runSignals_nil, candsOf]
  | cons e ds ih =>
      cases e with
      | offer sdp => exact absurd (h _ (List.mem_cons_self ..)) (by simp [SignalData.isDesc])
      | answer sdp => exact absurd (h _ (List.mem_cons_self ..)) (by simp [SignalData.isDesc])
      | iceCandidate c =>
          rw [runSignals_cons]
          have hstep : stepSignal st (.iceCandidate c) =
              { st with pendingCandidates := st.pendingCandidates ++ [c] } := by
            simp [stepSignal, hr]
          have hr2 : (stepSignal st (.iceCandidate c)).remoteDesc = none := by
            rw [hstep]; exact hr
          have hrec := ih (stepSignal st (.iceCandidate c))
            (fun e he => h e (List.mem_cons_of_mem _ he)) hr2
          rw [hrec, hstep]
          simp [candsOf]

/-- A description-bearing signal applies the whole pending queue, in
order, and clears it; the remote description is set afterwards. -/
theorem stepSignal_desc (st : ManagerState) (d : SignalData) (hd : d.isDesc = true) :
    (stepSignal st d).appliedCandidates = st.appliedCandidates ++ st.pendingCandidates ∧
    (stepSignal st d).pendingCandidates = [] ∧
    (stepSignal st d).remoteDesc.isSome = true := by
  cases d with
  | offer sdp => simp [stepSignal]
  | answer sdp => simp [stepSignal]
  | iceCandidate c => simp [SignalData.isDesc] at hd

/-- Once the remote description is set and the queue is empty, every
later candidate is applied immediately (appended to the applied log in
arrival order) and the queue stays empty forever. -/
theorem runSignals_afterDesc (ds : List SignalData) (st : ManagerState)
    (hr : st.remoteDesc.isSome = true) (hp : st.pendingCandidates = []) :
    (runSignals st ds).appliedCandidates = st.appliedCandidates ++ candsOf ds ∧
    (runSignals st ds).pendingCandidates = [] ∧
    (runSignals st ds).remoteDesc.isSome = true := by
  induction ds generalizing st with
  | nil => simp [runSignals_nil, candsOf, hp, hr]
  | cons e ds ih =>
      rw [runSignals_cons]
      cases e with
      | offer sdp =>
          have := ih (stepSignal st (.offer sdp)) (by simp [stepSignal]) (by simp [stepSignal])
          simpa [stepSignal, hp, candsOf] using this
      | answer sdp =>
          have := ih (stepSignal st (.answer sdp)) (by simp [stepSignal]) (by simp [stepSignal])
          simpa [stepSignal, hp, candsOf] using this
      | iceCandidate c =>
          have hstep : stepSignal st (.iceCandidate c) =
              { st with appliedCandidates := st.appliedCandidates ++ [c] } := by
            simp [stepSignal, hr]
          have := ih (stepSignal st (.iceCandidate c)) (by rw [hstep]; exact hr) (by rw [hstep]; exact hp)
          rw [hstep] at this ⊢
          simpa [candsOf, List.append_assoc] using this

/-- The step function preserves the invariant: whenever the remote
description is set, the pending queue is empty. -/
theorem stepSignal_inv (st : ManagerState) (d : SignalData)
    (h : st.remoteDesc.isSome = true → st.pendingCandidates = []) :
    (stepSignal st d).remoteDesc.isSome = true → (stepSignal st d).pendingCandidates = [] := by
  cases d with
  | offer sdp => simp [stepSignal]
  | answer sdp => simp [stepSignal]
  | iceCandidate c =>
      by_cases hr : st.remoteDesc.isSome
      · simp [stepSignal, hr, h hr]
      · simp only [Bool.not_eq_true] at hr
        simp [stepSignal, hr]

theorem runSignals_inv (ds : List SignalData) (st : ManagerState)
    (h : st.remoteDesc.isSome = true → st.pendingCandidates = []) :
    (runSignals st ds).remoteDesc.isSome = true →
      (runSignals st ds).pendingCandidates = [] := by
  induction ds generalizing st with
  | nil => exact h
  | cons e ds ih => exact ih _ (stepSignal_inv st e h)

/-- C3: from a fresh manager, over any trace made of candidate signals
`t1`, then the first description-bearing signal `d`, then an arbitrary
tail `t2`: (i) every candidate of `t1` is enqueued in arrival order and
none is applied before `d`; (ii) immediately after `d` the queue has
been drained, in original order, into the applied log and is empty;
(iii) at the end of the trace the applied log is exactly the candidates
of `t1` followed by those of `t2`, each applied once, and the queue is
empty; (iv) invariantly, the queue is non-empty only while the remote
description is unset. -/
theorem pending_candidates_lifecycle (t1 t2 : List SignalData) (d : SignalData)
    (h1 : ∀ e ∈ t1, e.isDesc = false) (hd : d.isDesc = true) :
    ((runSignals initialState t1).pendingCandidates = candsOf t1 ∧
     (runSignals initialState t1).appliedCandidates = [] ∧
     (runSignals initialState t1).remoteDesc = none) ∧
    ((runSignals initialState (t1 ++ [d])).appliedCandidates = candsOf t1 ∧
     (runSignals initialState (t1 ++ [d])).pendingCandidates = []) ∧
    ((runSignals initialState (t1 ++ d :: t2)).appliedCandidates = candsOf t1 ++ candsOf t2 ∧
     (runSignals initialState (t1 ++ d :: t2)).pendingCandidates = []) ∧
    (∀ ds : List SignalData, (runSignals initialState ds).remoteDesc.isSome = true →
      (runSignals initialState ds).pendingCandidates = []) := by
  have hrun1 : runSignals initialState t1 =
      { initialState with pendingCandidates := candsOf t1 } := by
    simpa [initialState] using runSignals_noDesc t1 initialState h1 rfl
  have hdesc := stepSignal_desc (runSignals initialState t1) d hd
  refine ⟨⟨by rw [hrun1], by rw [hrun1]; simp [initialState],
           by rw [hrun1]; simp [initialState]⟩, ?_, ?_, ?_⟩
  · rw [runSignals_append]
    rw [runSignals_cons, runSignals_nil]
    refine ⟨?_, hdesc.2.1⟩
    rw [hdesc.1, hrun1]
    simp [initialState]
  · have hsplit : t1 ++ d :: t2 = (t1 ++ [d]) ++ t2 := by simp
    rw [hsplit, runSignals_append, runSignals_append, runSignals_cons, runSignals_nil]
    have hafter := runSignals_afterDesc t2 (stepSignal (runSignals initialState t1) d)
      hdesc.2.2 hdesc.2.1
    refine ⟨?_, hafter.2.1⟩
    rw [hafter.1, hdesc.1, hrun1]
    simp [initialState]
  · intro ds
    exact runSignals_inv ds initialState (by simp [initialState])

/-- Witness for C3 at a concrete trace: two candidates queued before
the offer, one applied directly afterwards. -/
theorem pending_candidates_lifecycle_witness :
    (runSignals initialState
        ([SignalData.iceCandidate "a", SignalData.iceCandidate "b"] ++
          SignalData.offer "s" :: [SignalData.iceCandidate "c"])).appliedCandidates =
      candsOf [SignalData.iceCandidate "a", SignalData.iceCandidate "b"] ++
        candsOf [SignalData.iceCandidate "c"] ∧
    (runSignals initialState
        ([SignalData.iceCandidate "a", SignalData.iceCandidate "b"] ++
          SignalData.offer "s" :: [SignalData.iceCandidate "c"])).pendingCandidates = [] :=
  (pending_candidates_lifecycle
    [SignalData.iceCandidate "a", SignalData.iceCandidate "b"]
    [SignalData.iceCandidate "c"] (SignalData.offer "s")
    (by decide) (by decide)).2.2.1

/-! ## Generic facts about data-channel message runs -/

theorem runMessages_nil (st : ManagerState) : runMessages st [] = st := rfl

theorem runMessages_cons (st : ManagerState) (m : Msg) (ms : List Msg) :
    runMessages st (m :: ms) = runMessages (handleDataMessage st m) ms := rfl

/-- A binary frame that reaches (or overshoots) the declared size:
the concatenation of all buffered chunks, in arrival order, is emitted
under the expected name, the chunk buffer alone is cleared, and every
other field — including `receivedSize` and the expected metadata —
keeps its value. -/
theorem handleDataMessage_bin_complete (st : ManagerState) (b : List Nat)
    (h : st.expectedSize ≤ st.receivedSize + b.length) :
    handleDataMessage st (.bin b) =
      { st with
        receiveBuffer := []
        receivedSize := st.receivedSize + b.length
        progressLog := st.progressLog ++
          [(recvProgress (st.receivedSize + b.length) st.expectedSize, "receiving")]
        filesReceived := st.filesReceived ++
          [((st.receiveBuffer ++ [b]).flatten, st.expectedName)] } := by
  simp [handleDataMessage, h]

/-- A binary frame that stays short of the declared size: it is buffered
and counted, progress is reported, nothing is emitted. -/
theorem handleDataMessage_bin_incomplete (st : ManagerState) (b : List Nat)
    (h : st.receivedSize + b.length < st.expectedSize) :
    handleDataMessage st (.bin b) =
      { st with
        receiveBuffer := st.receiveBuffer ++ [b]
        receivedSize := st.receivedSize + b.length
        progressLog := st.progressLog ++
          [(recvProgress (st.receivedSize + b.length) st.expectedSize, "receiving")] } := by
  simp [handleDataMessage, Nat.not_le.mpr h]

/-- Delivering binary frames whose lengths sum to exactly the missing
byte count, all of them non-empty, produces exactly one emission: the
buffered chunks followed by the new frames, concatenated in arrival
order. -/
theorem runMessages_bins_complete (bs : List (List Nat)) (st : ManagerState)
    (hsum : st.receivedSize + (bs.map List.length).sum = st.expectedSize)
    (hne : ∀ b ∈ bs, b ≠ []) (hbs : bs ≠ []) :
    (runMessages st (bs.map Msg.bin)).filesReceived =
      st.filesReceived ++ [((st.receiveBuffer ++ bs).flatten, st.expectedName)] ∧
    (runMessages st (bs.map Msg.bin)).receiveBuffer = [] := by
  induction bs generalizing st with
  | nil => exact absurd rfl hbs
  | cons b rest ih =>
      cases rest with
      | nil =>
          have hc : st.expectedSize ≤ st.receivedSize + b.length := by
            simp only [List.map_cons, List.map_nil, List.sum_cons, List.sum_nil] at hsum
            omega
          simp only [List.map_cons, List.map_nil, runMessages_cons, runMessages_nil]
          rw [handleDataMessage_bin_complete st b hc]
          constructor
          · simp
          · simp
      | cons b2 rest2 =>
          have hb2 : 0 < b2.length := List.length_pos.mpr (hne b2 (by simp))
          have hlt : st.receivedSize + b.length < st.expectedSize := by
            simp only [List.map_cons, List.sum_cons] at hsum
            omega
          simp only [List.map_cons, runMessages_cons]
          rw [handleDataMessage_bin_incomplete st b hlt]
          have hrec := ih
            { st with
              receiveBuffer := st.receiveBuffer ++ [b]
              receivedSize := st.receivedSize + b.length
              progressLog := st.progressLog ++
                [(recvProgress (st.receivedSize + b.length) st.expectedSize, "receiving")] }
            (by
              simp only [List.map_cons, List.sum_cons] at hsum ⊢
              omega)
            (fun x hx => hne x (List.mem_cons_of_mem _ hx)) (by simp)
          simp only [List.map_cons, runMessages_cons] at hrec
          refine ⟨?_, hrec.2⟩
          rw [hrec.1]
          simp

/-! ## Facts about the chunking of the send path -/

/-- Concatenating the chunks sent from `offset` recovers the suffix of
the file starting at `offset`. -/
theorem sendChunksFrom_flatten (file : List Nat) (offset : Nat) :
    (sendChunksFrom file offset).flatten = file.drop offset := by
  refine sendChunksFrom.induct file
    (fun off => (sendChunksFrom file off).flatten = file.drop off) ?_ ?_ offset
  · intro x h
    rw [sendChunksFrom, dif_pos h, List.flatten_nil]
    exact (List.drop_eq_nil_of_le h).symm
  · intro x h ih
    rw [sendChunksFrom, dif_neg h, List.flatten_cons, ih, ← List.drop_drop]
    exact List.take_append_drop chunkSize (file.drop x)

/-- Every chunk the sender emits is non-empty. -/
theorem sendChunksFrom_ne_nil (file : List Nat) (offset : Nat) :
    ∀ b ∈ sendChunksFrom file offset, b ≠ [] := by
  refine sendChunksFrom.induct file
    (fun off => ∀ b ∈ sendChunksFrom file off, b ≠ []) ?_ ?_ offset
  · intro x h b hb
    rw [sendChunksFrom, dif_pos h] at hb
    exact absurd hb (List.not_mem_nil b)
  · intro x h ih b hb
    rw [sendChunksFrom, dif_neg h, List.mem_cons] at hb
    rcases hb with rfl | hb
    · have hlen : 0 < ((file.drop x).take chunkSize).length := by
        simp only [List.length_take, List.length_drop]
        simp only [not_le] at h
        have : 0 < chunkSize := by decide
        omega
      exact List.ne_nil_of_length_pos hlen
    · exact ih b hb

/-- For a non-empty file the sender emits at least one chunk. -/
theorem sendChunksFrom_zero_ne_nil (file : List Nat) (h : 1 ≤ file.length) :
    sendChunksFrom file 0 ≠ [] := by
  rw [sendChunksFrom, dif_neg (by omega : ¬ file.length ≤ 0)]
  exact List.cons_ne_nil _ _

/-- The chunk lengths sum to the file size. -/
theorem sendChunksFrom_length_sum (file : List Nat) :
    ((sendChunksFrom file 0).map List.length).sum = file.length := by
  have := sendChunksFrom_flatten file 0
  have hlen : (sendChunksFrom file 0).flatten.length = (file.drop 0).length := by rw [this]
  simpa [List.length_flatten] using hlen

/-- C1 (amended to `S ≥ 1`): for every non-empty file, delivering the
metadata and then the sender's chunks in order makes the receiver emit
exactly one artifact, byte-for-byte identical to the source file (hence
of length exactly `S`), under the declared name — covering sizes that
are not a multiple of the 16384-byte chunk size (shorter final chunk). -/
theorem file_reconstruction (file : List Nat) (name mime : String) (st : ManagerState)
    (h : 1 ≤ file.length) :
    (runMessages st
        (Msg.meta name file.length mime :: (sendChunksFrom file 0).map Msg.bin)).filesReceived
      = st.filesReceived ++ [(file, name)] := by
  rw [runMessages_cons]
  have hbins := runMessages_bins_complete (sendChunksFrom file 0)
    (handleDataMessage st (.meta name file.length mime))
    (by simp [handleDataMessage, sendChunksFrom_length_sum])
    (sendChunksFrom_ne_nil file 0) (sendChunksFrom_zero_ne_nil file h)
  rw [hbins.1]
  simp [handleDataMessage, sendChunksFrom_flatten]

/-- Witness for C1 on a 5-byte file (shorter than one chunk, so the
final — and only — chunk is shorter than 16384 bytes). -/
theorem file_reconstruction_witness :
    (runMessages initialState
        (Msg.meta "a.bin" ([1, 2, 3, 4, 5] : List Nat).length "application/octet-stream"
          :: (sendChunksFrom [1, 2, 3, 4, 5] 0).map Msg.bin)).filesReceived
      = initialState.filesReceived ++ [([1, 2, 3, 4, 5], "a.bin")] :=
  file_reconstruction [1, 2, 3, 4, 5] "a.bin" "application/octet-stream" initialState
    (by decide)

/-- Counterexample to C1 as stated: for `S = 0` the sender emits zero
chunks and reports completion, but the receiver never emits any
artifact — completion is only ever checked in the binary branch of
`handleDataMessage`, and no binary frame arrives. -/
theorem empty_file_no_emission :
    sendChunksFrom [] 0 = [] ∧
    (runMessages initialState
        (Msg.meta "empty.txt" 0 "text/plain" :: (sendChunksFrom [] 0).map Msg.bin)).filesReceived
      = [] := by
  have h0 : sendChunksFrom ([] : List Nat) 0 = [] := by
    rw [sendChunksFrom, dif_pos (by simp)]
  exact ⟨h0, by rw [h0]; rfl⟩

/-- C4: failing input evaluated on the code — declared size 5, one
8-byte frame.  The emitted artifact contains all 8 received bytes (3
beyond the declared size) and nothing is reported as an error, where
the claim demands the excess be reported and not appended. -/
theorem overrun_bytes_appended :
    (runMessages initialState
        [Msg.meta "a.txt" 5 "text/plain", Msg.bin [1, 2, 3, 4, 5, 6, 7, 8]]).filesReceived
      = [([1, 2, 3, 4, 5, 6, 7, 8], "a.txt")] ∧
    (runMessages initialState
        [Msg.meta "a.txt" 5 "text/plain", Msg.bin [1, 2, 3, 4, 5, 6, 7, 8]]).expectedSize = 5 ∧
    5 < ([1, 2, 3, 4, 5, 6, 7, 8] : List Nat).length := by
  refine ⟨rfl, rfl, by decide⟩

/-- C9 (amended): when a frame completes the transfer, the buffered
chunks are concatenated in arrival order and emitted under the expected
name, the chunk buffer — and only the chunk buffer — is cleared, and
everything else is untouched: `receivedSize` keeps growing (it is not
reset), the expected metadata persists until the next metadata message,
and no non-transfer session state (room code, host flag, candidate
queue, remote description, applied candidates) changes. -/
theorem completion_emits_and_clears_buffer (st : ManagerState) (b : List Nat)
    (hc : st.expectedSize ≤ st.receivedSize + b.length) :
    (handleDataMessage st (.bin b)).filesReceived =
        st.filesReceived ++ [((st.receiveBuffer ++ [b]).flatten, st.expectedName)] ∧
    (handleDataMessage st (.bin b)).receiveBuffer = [] ∧
    (handleDataMessage st (.bin b)).receivedSize = st.receivedSize + b.length ∧
    (handleDataMessage st (.bin b)).expectedSize = st.expectedSize ∧
    (handleDataMessage st (.bin b)).expectedName = st.expectedName ∧
    (handleDataMessage st (.bin b)).expectedType = st.expectedType ∧
    (handleDataMessage st (.bin b)).roomCode = st.roomCode ∧
    (handleDataMessage st (.bin b)).isHost = st.isHost ∧
    (handleDataMessage st (.bin b)).pendingCandidates = st.pendingCandidates ∧
    (handleDataMessage st (.bin b)).remoteDesc = st.remoteDesc ∧
    (handleDataMessage st (.bin b)).appliedCandidates = st.appliedCandidates := by
  rw [handleDataMessage_bin_complete st b hc]
  simp

/-- Witness for C9: a 2-byte frame completing a 5-byte transfer whose
first 3 bytes are already buffered. -/
theorem completion_emits_and_clears_buffer_witness :
    (handleDataMessage
        { initialState with
          expectedSize := 5, expectedName := "a.txt", expectedType := "text/plain"
          receivedSize := 3, receiveBuffer := [[1, 2, 3]] }
        (.bin [4, 5])).filesReceived =
      ({ initialState with
          expectedSize := 5, expectedName := "a.txt", expectedType := "text/plain"
          receivedSize := 3, receiveBuffer := [[1, 2, 3]] } : ManagerState).filesReceived ++
        [((([[1, 2, 3]] : List (List Nat)) ++ [[4, 5]]).flatten, "a.txt")] :=
  (completion_emits_and_clears_buffer
    { initialState with
      expectedSize := 5, expectedName := "a.txt", expectedType := "text/plain"
      receivedSize := 3, receiveBuffer := [[1, 2, 3]] }
    [4, 5] (by decide)).1

/-- Counterexample to C9 as stated: after a completed 5-byte transfer,
`receivedSize` is still 5 (not reset) and the expected metadata is
still present — the code clears only `receiveBuffer`, while the claim
says the received byte count and expected metadata are reset too. -/
theorem completion_no_reset_counterexample :
    (runMessages initialState
        [Msg.meta "a.txt" 5 "text/plain", Msg.bin [9, 9, 9, 9, 9]]).filesReceived
      = [([9, 9, 9, 9, 9], "a.txt")] ∧
    (runMessages initialState
        [Msg.meta "a.txt" 5 "text/plain", Msg.bin [9, 9, 9, 9, 9]]).receivedSize = 5 ∧
    (runMessages initialState
        [Msg.meta "a.txt" 5 "text/plain", Msg.bin [9, 9, 9, 9, 9]]).expectedName = "a.txt" ∧
    (runMessages initialState
        [Msg.meta "a.txt" 5 "text/plain", Msg.bin [9, 9, 9, 9, 9]]).expectedSize = 5 :=
  ⟨rfl, rfl, rfl, rfl⟩

/-! ## Offline token round-trip -/

/-- `String.fromCharCode` then `charCodeAt` is the identity on byte
sequences (every byte is a valid code point below the surrogate
range). -/
theorem binString_roundtrip (bs : List Nat) (h : ∀ b ∈ bs, b < 256) :
    binStringToBytes (bytesToBinString bs) = bs := by
  unfold binStringToBytes bytesToBinString
  rw [List.map_map]
  refine List.map_congr_left ?_ |>.trans (List.map_id bs)
  intro b hb
  have hv : Nat.isValidChar b := Or.inl (by have := h b hb; omega)
  simp only [Function.comp_apply, id]
  rw [Char.ofNat, dif_pos hv]
  rfl

/-- C2: decoding inverts encoding.  The external codecs the source
composes (`JSON.stringify` / `JSON.parse`, `pako.deflate` /
`pako.inflate`, `btoa` / `atob`) are quantified over, each assumed
only to satisfy its documented round-trip contract on the values this
encoding actually produces; the byte-per-character binary-string step
(`String.fromCharCode` / `charCodeAt`) is modelled and discharged
exactly.  Under those contracts, `decompressSDP (compressSDP d) = d`
for every descriptor `d`. -/
theorem sdp_roundtrip (d : SessionDesc)
    (stringify : SessionDesc → String) (deflate : String → List Nat)
    (btoa : List Char → String) (atob : String → Option (List Char))
    (inflate : List Nat → Option String) (parse : String → Option SessionDesc)
    (hbytes : ∀ b ∈ deflate (stringify d), b < 256)
    (hb64 : atob (btoa (bytesToBinString (deflate (stringify d)))) =
      some (bytesToBinString (deflate (stringify d))))
    (hzip : inflate (deflate (stringify d)) = some (stringify d))
    (hjson : parse (stringify d) = some d) :
    decompressSDP atob inflate parse (compressSDP stringify deflate btoa d) = some d := by
  unfold compressSDP decompressSDP
  rw [hb64]
  simp only [Option.bind_eq_bind, Option.some_bind]
  rw [binString_roundtrip _ hbytes, hzip]
  simpa using hjson

/-- Witness for C2 with concrete codecs satisfying the contracts on a
concrete descriptor: serialisation by tagging, compression as the
identity byte encoding of the string, base64 as the identity. -/
theorem sdp_roundtrip_witness :
    decompressSDP (fun s => some s.data)
        (fun bs => some (String.mk (bs.map Char.ofNat)))
        (fun s => if s = "offer|v=0" then some ⟨"offer", "v=0"⟩ else none)
        (compressSDP (fun x => x.type ++ "|" ++ x.sdp)
          (fun s => s.data.map Char.toNat) (fun cs => String.mk cs)
          ⟨"offer", "v=0"⟩) =
      some ⟨"offer", "v=0"⟩ :=
  sdp_roundtrip ⟨"offer", "v=0"⟩
    (fun x => x.type ++ "|" ++ x.sdp) (fun s => s.data.map Char.toNat)
    (fun cs => String.mk cs) (fun s => some s.data)
    (fun bs => some (String.mk (bs.map Char.ofNat)))
    (fun s => if s = "offer|v=0" then some ⟨"offer", "v=0"⟩ else none)
    (by decide) (by rfl) (by decide) (by decide)

/-! ## Progress reporting -/

/-- Ordering on progress reports: the reported value does not
decrease. -/
def progressLE (p q : ℚ × String) : Prop := p.1 ≤ q.1

/-- The `onProgress` reports the receiver makes for a run of binary
frames, starting from `r` bytes already received against declared size
`S`. -/
def progressOfBins (S : Nat) : Nat → List (List Nat) → List (ℚ × String)
  | _, [] => []
  | r, b :: rest =>
      (recvProgress (r + b.length) S, "receiving") :: progressOfBins S (r + b.length) rest

/-- `getLast?` skips the head when the tail is non-empty. -/
theorem cons_getLast_aux {α : Type} (a : α) (l : List α) (h : l ≠ []) :
    (a :: l).getLast? = l.getLast? := by
  cases l with
  | nil => exact absurd rfl h
  | cons b t => exact List.getLast?_cons_cons

theorem recvProgress_mono (S r1 r2 : Nat) (h : r1 ≤ r2) :
    recvProgress r1 S ≤ recvProgress r2 S := by
  unfold recvProgress
  split
  · exact le_refl _
  · rename_i hS
    have hlen : (0 : ℚ) < (S : ℚ) := by
      have : 0 < S := Nat.pos_of_ne_zero hS
      exact_mod_cast this
    apply min_le_min (le_refl _)
    gcongr

theorem recvProgress_nonneg (r S : Nat) : 0 ≤ recvProgress r S := by
  unfold recvProgress
  split
  · norm_num
  · exact le_min (by norm_num) (by positivity)

theorem recvProgress_self (S : Nat) : recvProgress S S = 100 := by
  unfold recvProgress
  split
  · rfl
  · rename_i hS
    rw [div_self (Nat.cast_ne_zero.mpr hS), one_mul, min_self]

/-- The receiver's progress log over a run of binary frames. -/
theorem runMessages_bins_progress (bs : List (List Nat)) (st : ManagerState) :
    (runMessages st (bs.map Msg.bin)).progressLog =
      st.progressLog ++ progressOfBins st.expectedSize st.receivedSize bs := by
  induction bs generalizing st with
  | nil => simp [runMessages_nil, progressOfBins]
  | cons b rest ih =>
      rw [List.map_cons, runMessages_cons]
      by_cases hc : st.expectedSize ≤ st.receivedSize + b.length
      · rw [handleDataMessage_bin_complete st b hc, ih]
        simp [progressOfBins]
      · rw [handleDataMessage_bin_incomplete st b (by omega), ih]
        simp [progressOfBins]

theorem progressOfBins_head_lb (S : Nat) (bs : List (List Nat)) (r : Nat) :
    ∀ q ∈ (progressOfBins S r bs).head?, recvProgress r S ≤ q.1 := by
  cases bs with
  | nil => simp [progressOfBins]
  | cons b rest =>
      intro q hq
      simp only [progressOfBins, List.head?_cons, Option.mem_def, Option.some.injEq] at hq
      rw [← hq]
      exact recvProgress_mono S r (r + b.length) (Nat.le_add_right r b.length)

theorem progressOfBins_chain (S : Nat) (bs : List (List Nat)) :
    ∀ r, List.Chain' progressLE (progressOfBins S r bs) := by
  induction bs with
  | nil => intro r; simp [progressOfBins]
  | cons b rest ih =>
      intro r
      rw [show progressOfBins S r (b :: rest) =
        (recvProgress (r + b.length) S, "receiving")
          :: progressOfBins S (r + b.length) rest from rfl]
      rw [List.chain'_cons']
      exact ⟨progressOfBins_head_lb S rest (r + b.length), ih (r + b.length)⟩

theorem progressOfBins_ne_nil (S : Nat) (bs : List (List Nat)) (r : Nat) (h : bs ≠ []) :
    progressOfBins S r bs ≠ [] := by
  cases bs with
  | nil => exact absurd rfl h
  | cons b rest => exact List.cons_ne_nil _ _

theorem progressOfBins_last (S : Nat) (bs : List (List Nat)) :
    ∀ r, r + (bs.map List.length).sum = S → bs ≠ [] →
      (progressOfBins S r bs).getLast? = some (100, "receiving") := by
  induction bs with
  | nil => intro r _ h; exact absurd rfl h
  | cons b rest ih =>
      intro r hsum _
      cases rest with
      | nil =>
          have hr : r + b.length = S := by
            simp only [List.map_cons, List.map_nil, List.sum_cons, List.sum_nil] at hsum
            omega
          show ([(recvProgress (r + b.length) S, "receiving")] : List (ℚ × String)).getLast?
            = some (100, "receiving")
          rw [hr, recvProgress_self]
          rfl
      | cons b2 rest2 =>
          rw [show progressOfBins S r (b :: b2 :: rest2) =
            (recvProgress (r + b.length) S, "receiving")
              :: progressOfBins S (r + b.length) (b2 :: rest2) from rfl]
          rw [cons_getLast_aux _ _ (progressOfBins_ne_nil S (b2 :: rest2) (r + b.length) (by simp))]
          refine ih (r + b.length) ?_ (by simp)
          simp only [List.map_cons, List.sum_cons] at hsum ⊢
          omega

theorem sendProgressFrom_ne_nil (file : List Nat) (offset : Nat) :
    sendProgressFrom file offset ≠ [] := by
  rw [sendProgressFrom]
  split
  · exact List.cons_ne_nil _ _
  · exact List.cons_ne_nil _ _

theorem sendProgressFrom_lb (file : List Nat) (offset : Nat) :
    ∀ p ∈ sendProgressFrom file offset,
      min 100 (((offset : ℚ) / (file.length : ℚ)) * 100) ≤ p.1 := by
  refine sendProgressFrom.induct file
    (fun off => ∀ p ∈ sendProgressFrom file off,
      min 100 (((off : ℚ) / (file.length : ℚ)) * 100) ≤ p.1) ?_ ?_ offset
  · intro x h p hp
    rw [sendProgressFrom, dif_pos h] at hp
    simp only [List.mem_singleton] at hp
    rw [hp]
    exact min_le_left _ _
  · intro x h ih p hp
    rw [sendProgressFrom, dif_neg h] at hp
    have hlen : (0 : ℚ) < (file.length : ℚ) := by
      have : 0 < file.length := by omega
      exact_mod_cast this
    have hmono : min 100 (((x : ℚ) / (file.length : ℚ)) * 100) ≤
        min 100 ((((x + chunkSize : Nat) : ℚ) / (file.length : ℚ)) * 100) := by
      apply min_le_min (le_refl _)
      gcongr
      exact_mod_cast Nat.le_add_right x chunkSize
    rcases List.mem_cons.mp hp with rfl | hp2
    · exact hmono
    · exact le_trans hmono (ih p hp2)

theorem sendProgressFrom_chain (file : List Nat) (offset : Nat) :
    List.Chain' progressLE (sendProgressFrom file offset) := by
  refine sendProgressFrom.induct file
    (fun off => List.Chain' progressLE (sendProgressFrom file off)) ?_ ?_ offset
  · intro x h
    rw [sendProgressFrom, dif_pos h]
    simp
  · intro x h ih
    rw [sendProgressFrom, dif_neg h, List.chain'_cons']
    refine ⟨?_, ih⟩
    intro q hq
    exact sendProgressFrom_lb file (x + chunkSize) q (List.mem_of_mem_head? hq)

theorem sendProgressFrom_last (file : List Nat) (offset : Nat) :
    (sendProgressFrom file offset).getLast? = some (100, "completed") := by
  refine sendProgressFrom.induct file
    (fun off => (sendProgressFrom file off).getLast? = some (100, "completed")) ?_ ?_ offset
  · intro x h
    rw [sendProgressFrom, dif_pos h]
    rfl
  · intro x h ih
    rw [sendProgressFrom, dif_neg h,
      cons_getLast_aux _ _ (sendProgressFrom_ne_nil file (x + chunkSize))]
    exact ih

/-- C5 (amended: the receive half requires `S ≥ 1`): the sender's
progress reports are monotonically non-decreasing and end with exactly
`(100, completed)` for every file; the receiver's reports over a
metadata message followed by frames totalling exactly the declared size
`S ≥ 1` are the log `0, …` appended to the prior log, monotonically
non-decreasing, ending with exactly value 100 at the moment
`receivedBytes = declaredSize`. -/
theorem progress_monotone_and_completes (file : List Nat) (st : ManagerState)
    (name mime : String) (S : Nat) (bs : List (List Nat))
    (hS : 1 ≤ S) (hsum : (bs.map List.length).sum = S) :
    (List.Chain' progressLE (sendProgressFrom file 0) ∧
     (sendProgressFrom file 0).getLast? = some (100, "completed")) ∧
    ((runMessages st (Msg.meta name S mime :: bs.map Msg.bin)).progressLog =
        st.progressLog ++ ((0, "receiving") :: progressOfBins S 0 bs) ∧
     List.Chain' progressLE ((0, "receiving") :: progressOfBins S 0 bs) ∧
     ((0, "receiving") :: progressOfBins S 0 bs).getLast? = some (100, "receiving")) := by
  have hbsne : bs ≠ [] := by
    rintro rfl
    simp at hsum
    omega
  refine ⟨⟨sendProgressFrom_chain file 0, sendProgressFrom_last file 0⟩, ?_, ?_, ?_⟩
  · rw [runMessages_cons, runMessages_bins_progress]
    simp [handleDataMessage]
  · rw [List.chain'_cons']
    refine ⟨?_, progressOfBins_chain S bs 0⟩
    intro q hq
    exact le_trans (recvProgress_nonneg 0 S) (progressOfBins_head_lb S bs 0 q hq)
  · rw [cons_getLast_aux _ _ (progressOfBins_ne_nil S bs 0 hbsne)]
    exact progressOfBins_last S bs 0 (by omega) hbsne

/-- Witness for C5: a 1-byte transfer. -/
theorem progress_monotone_and_completes_witness :
    (runMessages initialState
        (Msg.meta "f" 1 "m" :: ([[7]] : List (List Nat)).map Msg.bin)).progressLog =
      initialState.progressLog ++ ((0, "receiving") :: progressOfBins 1 0 [[7]]) ∧
    ((0, "receiving") :: progressOfBins 1 0 [[7]]).getLast? = some (100, "receiving") :=
  ⟨(progress_monotone_and_completes [7] initialState "f" "m" 1 [[7]]
      (by decide) (by decide)).2.1,
   (progress_monotone_and_completes [7] initialState "f" "m" 1 [[7]]
      (by decide) (by decide)).2.2.2⟩

/-- Counterexample to C5 as stated: on a declared size of 0, after the
metadata message `receivedBytes = declaredSize = 0` holds, yet the only
progress ever reported is 0 — it never reaches 100, because completion
is only checked when a binary frame arrives and none does. -/
theorem receive_progress_zero_size_counterexample :
    (runMessages initialState [Msg.meta "f" 0 "m"]).receivedSize =
      (runMessages initialState [Msg.meta "f" 0 "m"]).expectedSize ∧
    (runMessages initialState [Msg.meta "f" 0 "m"]).progressLog = [(0, "receiving")] ∧
    (0 : ℚ) ≠ 100 :=
  ⟨rfl, rfl, by norm_num⟩

/-! ## Backpressure on the send path -/

/-- The chunks the `sendNextChunk` loop hands to the channel do not
depend on the buffered-amount environment: every chunk is sent. -/
theorem sendSteps_chunks (file : List Nat) (env : Nat → Nat) :
    ∀ offset k, (sendSteps file env offset k).map SendStep.chunk = sendChunksFrom file offset := by
  intro offset k
  refine sendSteps.induct file env
    (fun off k => (sendSteps file env off k).map SendStep.chunk = sendChunksFrom file off)
    ?_ ?_ offset k
  · intro x k h
    rw [sendSteps, dif_pos h, sendChunksFrom, dif_pos h]
    rfl
  · intro x k h ih
    rw [sendSteps, dif_neg h, sendChunksFrom, dif_neg h, List.map_cons, ih]

/-- C8 (amended): the flow-control check runs after each send and only
chooses the delay before the next send — 0 ms when the read
`bufferedAmount` is below 1 MiB, 50 ms otherwise; it never prevents a
send, so every chunk of the file is handed to the channel whatever the
buffer does. -/
theorem backpressure_delays_but_sends (file : List Nat) (env : Nat → Nat)
    (offset k : Nat) :
    ((sendSteps file env offset k).map SendStep.chunk = sendChunksFrom file offset) ∧
    (∀ s ∈ sendSteps file env offset k,
      s.delayMs = if s.bufferedAfterSend < highWaterMark then 0 else 50) := by
  refine ⟨sendSteps_chunks file env offset k, ?_⟩
  refine sendSteps.induct file env
    (fun off k => ∀ s ∈ sendSteps file env off k,
      s.delayMs = if s.bufferedAfterSend < highWaterMark then 0 else 50)
    ?_ ?_ offset k
  · intro x k h s hs
    rw [sendSteps, dif_pos h] at hs
    exact absurd hs (List.not_mem_nil s)
  · intro x k h ih s hs
    rw [sendSteps, dif_neg h] at hs
    rcases List.mem_cons.mp hs with rfl | hs2
    · rfl
    · exact ih s hs2

/-- Counterexample to C8 as stated: a 16385-byte file (two chunks) on a
channel whose `bufferedAmount` reads 2 MiB at every instant.  Both
chunks are sent — the second at a moment when `bufferedAmount` (2 MiB)
is at least the 1 MiB watermark; the saturated post-send check merely
made the loop wait 50 ms before sending it anyway. -/
theorem chunk_sent_while_saturated :
    ((sendSteps (List.replicate 16385 0) (fun _ => 2 * highWaterMark) 0 0).map
        SendStep.bufferedAtSend = [2 * highWaterMark, 2 * highWaterMark]) ∧
    ((sendSteps (List.replicate 16385 0) (fun _ => 2 * highWaterMark) 0 0).map
        SendStep.delayMs = [50, 50]) ∧
    highWaterMark ≤ 2 * highWaterMark := by
  have h1 : ¬ (List.replicate 16385 (0 : Nat)).length ≤ 0 := by
    rw [List.length_replicate]
    omega
  have h2 : ¬ (List.replicate 16385 (0 : Nat)).length ≤ 0 + chunkSize := by
    rw [List.length_replicate]
    norm_num [chunkSize]
  have h3 : (List.replicate 16385 (0 : Nat)).length ≤ 0 + chunkSize + chunkSize := by
    rw [List.length_replicate]
    norm_num [chunkSize]
  rw [sendSteps, dif_neg h1, sendSteps, dif_neg h2, sendSteps, dif_pos h3]
  refine ⟨rfl, ?_, by norm_num [highWaterMark]⟩
  norm_num [highWaterMark]

/-! ## Relay room protocol -/

/-- Looking up a code after recording a guest under that code yields
the room with its guest slot filled. -/
theorem lookup_setGuest (rooms : RoomTable) (code sid : String) :
    (rooms.map
        (fun p => if p.1 = code then (p.1, { p.2 with guest := some sid }) else p)).lookup code
      = (rooms.lookup code).map (fun r => { r with guest := some sid }) := by
  induction rooms with
  | nil => rfl
  | cons p rest ih =>
      obtain ⟨k, r⟩ := p
      rw [List.map_cons]
      by_cases hk : k = code
      · subst hk
        rw [if_pos rfl, List.lookup_cons_self, List.lookup_cons_self]
        rfl
      · rw [if_neg hk, List.lookup_cons, List.lookup_cons]
        have hbeq : (code == k) = false := beq_eq_false_iff_ne.mpr (Ne.symm hk)
        rw [hbeq]
        exact ih

/-- C7: the `join-room` handler's full case analysis, plus the
two-attempt consequence.  An unknown code yields `Room not found` with
the table unchanged; an occupied guest slot yields `Room is full` with
the table unchanged; a free room records the caller as guest, notifies
the host with `guest-joined` and reports success — after which a second
attempt on the same room necessarily receives `Room is full`. -/
theorem joinRoomHandler_spec (rooms : RoomTable) (code sid sid2 : String) :
    (rooms.lookup code = none →
      joinRoomHandler rooms code sid = (rooms, .err "Room not found", [])) ∧
    (∀ r : Room, rooms.lookup code = some r → r.guest.isSome →
      joinRoomHandler rooms code sid = (rooms, .err "Room is full", [])) ∧
    (∀ r : Room, rooms.lookup code = some r → r.guest = none →
      (joinRoomHandler rooms code sid).2.1 = .success ∧
      (joinRoomHandler rooms code sid).2.2 = [(r.host, "guest-joined")] ∧
      ((joinRoomHandler rooms code sid).1.lookup code = some { r with guest := some sid }) ∧
      (joinRoomHandler (joinRoomHandler rooms code sid).1 code sid2).2.1
        = .err "Room is full") := by
  refine ⟨?_, ?_, ?_⟩
  · intro h
    simp [joinRoomHandler, h]
  · intro r hr hg
    obtain ⟨g, hg2⟩ := Option.isSome_iff_exists.mp hg
    simp [joinRoomHandler, hr, hg2]
  · intro r hr hg
    have hupd2 : (rooms.map
        (fun p => if p.1 = code then (p.1, { p.2 with guest := some sid }) else p)).lookup code
        = some { r with guest := some sid } := by
      rw [lookup_setGuest, hr]
      rfl
    have hupd : (joinRoomHandler rooms code sid).1.lookup code
        = some { r with guest := some sid } := by
      simp only [joinRoomHandler, hr, hg]
      exact hupd2
    refine ⟨by simp [joinRoomHandler, hr, hg], by simp [joinRoomHandler, hr, hg], hupd, ?_⟩
    simp [joinRoomHandler, hr, hg, hupd2]

/-- Witness for C7: a one-room table; the first join succeeds, the
second receives the room-full error. -/
theorem joinRoomHandler_spec_witness :
    (joinRoomHandler [("482913", ⟨"H", none⟩)] "482913" "G1").2.1 = JoinReply.success ∧
    (joinRoomHandler
        (joinRoomHandler [("482913", ⟨"H", none⟩)] "482913" "G1").1 "482913" "G2").2.1
      = JoinReply.err "Room is full" := by
  have h := (joinRoomHandler_spec [("482913", ⟨"H", none⟩)] "482913" "G1" "G2").2.2
    ⟨"H", none⟩ (by rfl) (by rfl)
  exact ⟨h.1, h.2.2.2⟩

/-! ## Client join and create -/

/-- C6 (amended): the client's `joinRoom` always resolves — timeout,
error response and success each produce a value — but its result
collapses every failure to `(false, error-status)`: the boolean is true
exactly on a response with no error field, and the status string only
distinguishes success from failure. -/
theorem joinRoom_resolution (outcome : Option JoinResponse) :
    ((joinRoomResolve outcome).1 = true ↔ ∃ r, outcome = some r ∧ r.error = none) ∧
    ((joinRoomResolve outcome).2
      = if (joinRoomResolve outcome).1 then "connecting" else "error") := by
  cases outcome with
  | none => simp [joinRoomResolve]
  | some r =>
      cases hr : r.error with
      | none =>
          constructor
          · simp [joinRoomResolve, hr]
          · simp [joinRoomResolve, hr]
      | some m =>
          constructor
          · simp [joinRoomResolve, hr]
          · simp [joinRoomResolve, hr]

/-- Counterexample to C6 as stated: the `Room not found` response, the
`Room is full` response, and the 10-second timeout all resolve to the
identical result `(false, error)` — the three failure outcomes are not
distinguished from one another. -/
theorem joinRoom_failures_indistinguishable :
    joinRoomResolve (some ⟨some "Room not found", none⟩) = (false, "error") ∧
    joinRoomResolve (some ⟨some "Room is full", none⟩) = (false, "error") ∧
    joinRoomResolve none = (false, "error") ∧
    joinRoomResolve (some ⟨some "Room not found", none⟩)
      = joinRoomResolve (some ⟨some "Room is full", none⟩) :=
  ⟨rfl, rfl, rfl, rfl⟩

/-- C10: `createRoom` is idempotent at the client interface.  With a
room code already set, any later call returns that code without
touching the state or contacting the server; from a fresh manager, the
first call connects the socket, marks the manager as host, stores and
resolves with the server-allocated code — and a repeat call then
returns that same code without a second room creation. -/
theorem createRoom_idempotent (st : CreateRoomState) (sc sc2 : String) (h : sc ≠ "") :
    (st.roomCode ≠ "" → createRoom st sc2 = (st, st.roomCode, false)) ∧
    (st.roomCode = "" →
      createRoom st sc
        = ({ roomCode := sc, isHost := true, socketConnected := true }, sc, true) ∧
      createRoom (createRoom st sc).1 sc2 = ((createRoom st sc).1, sc, false)) := by
  constructor
  · intro hne
    simp [createRoom, hne]
  · intro he
    have h1 : createRoom st sc
        = ({ roomCode := sc, isHost := true, socketConnected := true }, sc, true) := by
      simp [createRoom, he]
    refine ⟨h1, ?_⟩
    rw [h1]
    simp [createRoom, h]

/-- Witness for C10: the second call returns the first call's code and
does not contact the server. -/
theorem createRoom_idempotent_witness :
    createRoom (createRoom ⟨"", false, false⟩ "482913").1 "999999"
      = ((createRoom ⟨"", false, false⟩ "482913").1, "482913", false) :=
  ((createRoom_idempotent ⟨"", false, false⟩ "482913" "999999" (by decide)).2 rfl).2
